import Mathlib

/-!
Verification development for the mic2key voice-input system.

The definitions below are a shallow embedding, in Lean, of the Python
sources of the repository:
  - audio_recorder.py  (AudioRecorder, AsyncAudioRecorder)
  - voice_input.py     (VoiceInputSystem state machine)
  - hotkey_listener.py (HotkeyListener)
  - file_manager.py    (TempFileManager, CustomDirFileManager)

Audio samples are modelled as rationals (their values are irrelevant to the
control logic); durations are exact rationals, matching the spec-level
arithmetic of the 0.1 s chunk period.
-/

namespace Mic2Key

/-- One sample value. The concrete float payload is irrelevant to the logic. -/
abbrev Sample := ℚ

/-- One frame: one sample per channel (row of the `(frames, channels)` array
returned by `stream.read`). -/
abbrev Frame := List Sample

/-- One chunk: the block of frames returned by a single `stream.read`. -/
abbrev Chunk := List Frame

/-- `chunk_duration = 0.1` (100 ms chunks) in `_record_continuously`. -/
def chunkDuration : ℚ := 1 / 10

/-- The duration-cap test of `_record_continuously` (audio_recorder.py:133-137):
`if self.max_duration and total_duration >= self.max_duration`.  Python
truthiness of a float: `0.0` is falsy, hence the `d ≠ 0` conjunct. -/
def capReached (maxDuration : Option ℚ) (chunkCount : ℕ) : Bool :=
  match maxDuration with
  | none => false
  | some d => decide (d ≠ 0) && decide (d ≤ (chunkCount : ℚ) * chunkDuration)

/-- `AudioRecorder._record_continuously` (audio_recorder.py:114-143).

`reads` is the stream of outcomes of successive `stream.read` calls:
`some c` delivers chunk `c`, `none` means the read (or the stream open,
when it is the first element) raised.  `stopSet k` tells whether the stop
event is observed as set at the top of iteration `k`.  The result is the
accumulated chunk list together with a flag recording whether the worker
terminated through its exception handler (which clears `_is_recording`).
The `overflowed` flag of a read is only logged by the source and is not
modelled. -/
def recordContinuously (maxDuration : Option ℚ) (stopSet : ℕ → Bool) :
    List (Option Chunk) → ℕ → List Chunk → List Chunk × Bool
  | [], _, acc => (acc, false)
  | r :: rest, k, acc =>
    if stopSet k then (acc, false)
    else
      match r with
      | none => (acc, true)
      | some c =>
        if capReached maxDuration acc.length then (acc, false)
        else recordContinuously maxDuration stopSet rest (k + 1) (acc ++ [c])

/-- `capReached` with `max_duration = 0` is always false: `0.0` is falsy in
`if self.max_duration and ...`. -/
theorem capReached_some_zero (n : ℕ) : capReached (some 0) n = false := by
  simp [capReached]

theorem capReached_none (n : ℕ) : capReached none n = false := rfl

/-- Once the cap test holds at the current buffer length, the worker appends
nothing more: the first non-stopped, non-raising iteration breaks. -/
theorem recordContinuously_capReached_fix (maxDuration : Option ℚ)
    (stopSet : ℕ → Bool) (reads : List (Option Chunk)) (k : ℕ)
    (acc : List Chunk) (hacc : capReached maxDuration acc.length = true) :
    (recordContinuously maxDuration stopSet reads k acc).1 = acc := by
  cases reads with
  | nil => rfl
  | cons r rest =>
    cases h : stopSet k with
    | true => simp [recordContinuously, h]
    | false =>
      cases r with
      | none => simp [recordContinuously, h]
      | some c => simp [recordContinuously, h, hacc]

/-- Invariant for the capped loop: a buffer strictly shorter than
`D + chunkDuration` (in seconds) stays strictly shorter, because a chunk is
appended only while the cap test fails, i.e. while the buffer is shorter
than `D` seconds. -/
theorem recordContinuously_duration_lt (D : ℚ) (hD : 0 < D)
    (stopSet : ℕ → Bool) (reads : List (Option Chunk)) :
    ∀ (k : ℕ) (acc : List Chunk),
      (acc.length : ℚ) * chunkDuration < D + chunkDuration →
      ((recordContinuously (some D) stopSet reads k acc).1.length : ℚ) *
        chunkDuration < D + chunkDuration := by
  induction reads with
  | nil => intro k acc hacc; exact hacc
  | cons r rest ih =>
    intro k acc hacc
    cases h : stopSet k with
    | true => simpa [recordContinuously, h] using hacc
    | false =>
      cases r with
      | none => simpa [recordContinuously, h] using hacc
      | some c =>
        cases hcap : capReached (some D) acc.length with
        | true => simpa [recordContinuously, h, hcap] using hacc
        | false =>
          have hlt : (acc.length : ℚ) * chunkDuration < D := by
            have := hcap
            simp only [capReached] at this
            rcases Bool.and_eq_false_iff.mp this with h0 | hle
            · exact absurd (by simpa using h0) (by simpa using ne_of_gt hD)
            · have := of_decide_eq_false hle
              exact lt_of_not_le this
          have hstep : ((acc ++ [c]).length : ℚ) * chunkDuration <
              D + chunkDuration := by
            have : ((acc ++ [c]).length : ℚ) =
                (acc.length : ℚ) + 1 := by
              simp
            rw [this, add_mul, one_mul]
            exact add_lt_add_right hlt chunkDuration
          simpa [recordContinuously, h, hcap] using ih (k + 1) (acc ++ [c]) hstep

/-- When the cap is an exact multiple `m` of the chunk duration, the buffer
never grows past `m` chunks. -/
theorem recordContinuously_length_le (m : ℕ) (hm : 0 < m)
    (stopSet : ℕ → Bool) (reads : List (Option Chunk)) :
    ∀ (k : ℕ) (acc : List Chunk), acc.length ≤ m →
      (recordContinuously (some ((m : ℚ) * chunkDuration)) stopSet reads k
        acc).1.length ≤ m := by
  induction reads with
  | nil => intro k acc hacc; exact hacc
  | cons r rest ih =>
    intro k acc hacc
    cases h : stopSet k with
    | true => simpa [recordContinuously, h] using hacc
    | false =>
      cases r with
      | none => simpa [recordContinuously, h] using hacc
      | some c =>
        cases hcap : capReached (some ((m : ℚ) * chunkDuration))
            acc.length with
        | true => simpa [recordContinuously, h, hcap] using hacc
        | false =>
          have hmQ : ((m : ℚ) * chunkDuration) ≠ 0 := by
            have : (0 : ℚ) < (m : ℚ) * chunkDuration := by
              have hcd : (0 : ℚ) < chunkDuration := by norm_num [chunkDuration]
              exact mul_pos (by exact_mod_cast hm) hcd
            exact ne_of_gt this
          have hlt : (acc.length : ℚ) * chunkDuration <
              (m : ℚ) * chunkDuration := by
            simp only [capReached] at hcap
            rcases Bool.and_eq_false_iff.mp hcap with h0 | hle
            · exact absurd (not_not.mp (of_decide_eq_false h0)) hmQ
            · exact lt_of_not_le (of_decide_eq_false hle)
          have hltm : acc.length < m := by
            have hcd : (0 : ℚ) < chunkDuration := by norm_num [chunkDuration]
            have := lt_of_mul_lt_mul_right hlt (le_of_lt hcd)
            exact_mod_cast this
          have hstep : (acc ++ [c]).length ≤ m := by
            simpa using hltm
          simpa [recordContinuously, h, hcap] using ih (k + 1) (acc ++ [c]) hstep

/-- With `max_duration = 0` the cap test never fires, so the loop behaves
exactly as with `max_duration = None`. -/
theorem recordContinuously_zero_eq_none (stopSet : ℕ → Bool)
    (reads : List (Option Chunk)) :
    ∀ (k : ℕ) (acc : List Chunk),
      recordContinuously (some 0) stopSet reads k acc =
        recordContinuously none stopSet reads k acc := by
  induction reads with
  | nil => intro k acc; rfl
  | cons r rest ih =>
    intro k acc
    cases h : stopSet k with
    | true => simp [recordContinuously, h]
    | false =>
      cases r with
      | none => simp [recordContinuously, h]
      | some c =>
        simp [recordContinuously, h, capReached_some_zero, capReached_none,
          ih (k + 1) (acc ++ [c])]

/-- Without a cap, a never-stopped, error-free worker appends every chunk the
stream delivers: the loop never terminates on its own. -/
theorem recordContinuously_none_appends_all (reads : List Chunk) :
    ∀ (k : ℕ) (acc : List Chunk),
      recordContinuously none (fun _ => false) (reads.map some) k acc =
        (acc ++ reads, false) := by
  induction reads with
  | nil => intro k acc; simp [recordContinuously]
  | cons c rest ih =>
    intro k acc
    simp [recordContinuously, capReached_none, ih (k + 1) (acc ++ [c])]

/-! ## Recorder state (AudioRecorder, audio_recorder.py:19-112) -/

/-- The finalized audio returned through `_save_audio_data`: the result of
`np.concatenate(self._audio_data, axis=0)`, flattened to one dimension when
`channels == 1` (audio_recorder.py:97-105).  Persistence itself (the file
path) is an external collaborator and is not modelled. -/
inductive AudioArray where
  | mono (samples : List Sample)
  | multi (frames : List Frame)
deriving DecidableEq

/-- Number of samples per channel of a finalized array (its frame count). -/
def sampleCountPerChannel : AudioArray → ℕ
  | .mono s => s.length
  | .multi f => f.length

/-- `np.concatenate(self._audio_data, axis=0)` followed by `flatten()` when
mono (audio_recorder.py:99-103). -/
def finalize (channels : ℕ) (chunks : List Chunk) : AudioArray :=
  let audioData := chunks.flatten
  if channels = 1 then AudioArray.mono audioData.flatten
  else AudioArray.multi audioData

/-- The mutable state of one `AudioRecorder` instance
(audio_recorder.py:33-43).  `audioData = none` models the initial
`self._audio_data = None`; `workersLaunched` counts the capture threads
started so far. -/
structure RecorderState where
  sampleRate : ℕ
  channels : ℕ
  maxDuration : Option ℚ
  isRecording : Bool
  audioData : Option (List Chunk)
  stopEventSet : Bool
  workersLaunched : ℕ
deriving DecidableEq

/-- `AudioRecorder.__init__` (audio_recorder.py:19-43). -/
def initState (sampleRate channels : ℕ) (maxDuration : Option ℚ) :
    RecorderState :=
  { sampleRate := sampleRate
    channels := channels
    maxDuration := maxDuration
    isRecording := false
    audioData := none
    stopEventSet := false
    workersLaunched := 0 }

/-- `AudioRecorder.start_recording` (audio_recorder.py:49-75): refuses when a
session is active; otherwise sets the flag, clears the stop event, resets the
buffer to the empty list and launches the capture worker. -/
def startRecording (s : RecorderState) : Bool × RecorderState :=
  if s.isRecording then (false, s)
  else
    (true,
      { s with
        isRecording := true
        stopEventSet := false
        audioData := some []
        workersLaunched := s.workersLaunched + 1 })

/-- Merging a finished worker run into the recorder state: the worker has
written the accumulated chunks into `self._audio_data`, and its exception
handler (audio_recorder.py:141-143) clears `_is_recording` when it raised. -/
def joinWorker (s : RecorderState) (run : List Chunk × Bool) : RecorderState :=
  { s with
    audioData := some run.1
    isRecording := s.isRecording && !run.2 }

/-- `AudioRecorder.stop_recording` (audio_recorder.py:77-112), invoked once
the worker has terminated (the source joins the thread before touching the
buffer).  `if self._audio_data:` is Python truthiness: both `None` and the
empty list take the warning branch and return `None`. -/
def stopRecording (s : RecorderState) : Option AudioArray × RecorderState :=
  if s.isRecording = false then (none, s)
  else
    let s1 := { s with stopEventSet := true, isRecording := false }
    match s.audioData with
    | some chunks =>
      if chunks.isEmpty then (none, s1)
      else (some (finalize s.channels chunks), s1)
    | none => (none, s1)

/-- Concatenating lists of a uniform length `L` yields `count * L` elements. -/
theorem join_length_uniform {α : Type} (l : List (List α)) (L : ℕ)
    (h : ∀ c ∈ l, c.length = L) : l.flatten.length = l.length * L := by
  induction l with
  | nil => simp
  | cons c t ih =>
    have hc : c.length = L := h c (List.mem_cons_self c t)
    have ht : ∀ x ∈ t, x.length = L := fun x hx => h x (List.mem_cons_of_mem c hx)
    simp [hc, ih ht, Nat.succ_mul, Nat.add_comm]

/-! ## Cooperative recorder (AsyncAudioRecorder, audio_recorder.py:168-289) -/

/-- The progress value computed in `_record_continuously_async`
(audio_recorder.py:274-282): `min(elapsed / self.max_duration, 1.0)` when
`self.max_duration` is truthy, the raw elapsed seconds otherwise.  As in
`capReached`, a cap of `0.0` is falsy. -/
def progressValue (maxDuration : Option ℚ) (elapsed : ℚ) : ℚ :=
  match maxDuration with
  | none => elapsed
  | some d => if d ≠ 0 then min (elapsed / d) 1 else elapsed

/-- `AsyncAudioRecorder._record_continuously_async`
(audio_recorder.py:246-289).  Identical chunk logic to the threaded worker;
in addition, after appending a chunk it reports a progress value computed
from the elapsed event-loop time.  `clock k` is the elapsed time
(`current_time - start_time`) observed at the progress report of iteration
`k`.  The second component lists the values passed to the progress callback,
in order, for a session that supplied one. -/
def recordContinuouslyAsync (maxDuration : Option ℚ) (stopSet : ℕ → Bool)
    (clock : ℕ → ℚ) :
    List (Option Chunk) → ℕ → List Chunk → (List Chunk × Bool) × List ℚ
  | [], _, acc => ((acc, false), [])
  | r :: rest, k, acc =>
    if stopSet k then ((acc, false), [])
    else
      match r with
      | none => ((acc, true), [])
      | some c =>
        if capReached maxDuration acc.length then ((acc, false), [])
        else
          let res := recordContinuouslyAsync maxDuration stopSet clock rest
            (k + 1) (acc ++ [c])
          (res.1, progressValue maxDuration (clock k) :: res.2)

/-- Unfolding the cooperative loop at an iteration that appends. -/
theorem recordContinuouslyAsync_cons_append (maxDuration : Option ℚ)
    (stopSet : ℕ → Bool) (clock : ℕ → ℚ) (c : Chunk)
    (rest : List (Option Chunk)) (k : ℕ) (acc : List Chunk)
    (h : stopSet k = false) (hcap : capReached maxDuration acc.length = false) :
    recordContinuouslyAsync maxDuration stopSet clock (some c :: rest) k acc =
      ((recordContinuouslyAsync maxDuration stopSet clock rest (k + 1)
          (acc ++ [c])).1,
        progressValue maxDuration (clock k) ::
          (recordContinuouslyAsync maxDuration stopSet clock rest (k + 1)
            (acc ++ [c])).2) := by
  simp [recordContinuouslyAsync, h, hcap]

/-- The progress reports of one cooperative run: one value per appended
chunk, and the value reported after appending the `i`-th chunk (counting
from the initial buffer) is `progressValue` of the clock reading of that
iteration. -/
theorem recordContinuouslyAsync_progs_char (maxDuration : Option ℚ)
    (stopSet : ℕ → Bool) (clock : ℕ → ℚ) (reads : List (Option Chunk)) :
    ∀ (k : ℕ) (acc : List Chunk), ∃ n : ℕ,
      ((recordContinuouslyAsync maxDuration stopSet clock reads k
        acc).1.1).length = acc.length + n ∧
      (recordContinuouslyAsync maxDuration stopSet clock reads k acc).2 =
        (List.range n).map
          (fun i => progressValue maxDuration (clock (k + i))) := by
  induction reads with
  | nil => intro k acc; exact ⟨0, by simp [recordContinuouslyAsync]⟩
  | cons r rest ih =>
    intro k acc
    cases h : stopSet k with
    | true => exact ⟨0, by simp [recordContinuouslyAsync, h]⟩
    | false =>
      cases r with
      | none => exact ⟨0, by simp [recordContinuouslyAsync, h]⟩
      | some c =>
        cases hcap : capReached maxDuration acc.length with
        | true => exact ⟨0, by simp [recordContinuouslyAsync, h, hcap]⟩
        | false =>
          obtain ⟨n, hlen, hprogs⟩ := ih (k + 1) (acc ++ [c])
          rw [recordContinuouslyAsync_cons_append maxDuration stopSet clock c
            rest k acc h hcap]
          refine ⟨n + 1, ?_, ?_⟩
          · simp only [List.length_append, List.length_cons,
              List.length_nil] at hlen ⊢
            omega
          · simp only [hprogs]
            rw [List.range_succ_eq_map, List.map_cons, List.map_map]
            refine congrArg₂ _ (by simp) ?_
            apply List.map_congr_left
            intro a _
            have : k + 1 + a = k + (a + 1) := by omega
            simp [Function.comp, this]

/-- The deterministic clock of the test scenarios of the spec: the read of the
`k`-th chunk completes one chunk period after the previous one, so the
elapsed time observed at iteration `k` is `(k + 1) * chunkDuration`. -/
def detClock (k : ℕ) : ℚ := ((k : ℚ) + 1) * chunkDuration

/-! ## System state machine (VoiceInputSystem, voice_input.py:17-126) -/

/-- `SystemState` (voice_input.py:17-20). -/
inductive SystemState where
  | idle
  | recording
  | processing
deriving DecidableEq

/-- Outcomes of the collaborators consumed by
`_stop_recording_and_process`: the stop result of the recorder (a persisted audio
path or none), the transcription result for a given path (text or none), and
whether keystroke injection succeeds for a given text.  Each collaborator
catches its own exceptions and signals failure through these values
(audio_recorder.py:110-112, transcription_handler.py:45-47,
keyboard_controller.py:30-32). -/
structure ProcessEnv where
  stopResult : Option String
  transcribe : String → Option String
  typeText : String → Bool

/-- The observable state of one `VoiceInputSystem`: its `self.state` and the
texts injected so far. -/
structure VoiceInputState where
  state : SystemState
  typed : List String
deriving DecidableEq

/-- One `self.state = st` assignment, recorded in the assignment log. -/
def setState (v : VoiceInputState) (log : List SystemState)
    (st : SystemState) : VoiceInputState × List SystemState :=
  ({ v with state := st }, log ++ [st])

/-- `VoiceInputSystem._stop_recording_and_process` (voice_input.py:93-126),
with every `self.state` assignment recorded in order: enter `PROCESSING`,
stop the recorder, and on each downstream outcome (no audio file, failed or
empty transcription, injection success or failure) finish by assigning
`IDLE`. -/
def stopRecordingAndProcess (env : ProcessEnv) (v : VoiceInputState) :
    VoiceInputState × List SystemState :=
  let p1 := setState v [] SystemState.processing
  match env.stopResult with
  | none => setState p1.1 p1.2 SystemState.idle
  | some audioFile =>
    match env.transcribe audioFile with
    | some text =>
      let v2 :=
        if env.typeText text then { p1.1 with typed := p1.1.typed ++ [text] }
        else p1.1
      setState v2 p1.2 SystemState.idle
    | none => setState p1.1 p1.2 SystemState.idle

/-! ## Hotkey listener (HotkeyListener, hotkey_listener.py:5-73) -/

/-- Keyboard keys relevant to the listener; `other` stands for any further
key. -/
inductive PKey where
  | ctrlL
  | ctrlR
  | shiftL
  | shiftR
  | space
  | other (code : ℕ)
deriving DecidableEq

/-- A key press or release event delivered by the OS listener.  Holding a
key down produces repeated press events (auto-repeat). -/
inductive KeyEvent where
  | press (k : PKey)
  | release (k : PKey)
deriving DecidableEq

/-- `self.target_keys` (hotkey_listener.py:13-17). -/
def targetKeys : List PKey := [PKey.ctrlL, PKey.shiftL, PKey.space]

/-- `self.alt_target_keys` (hotkey_listener.py:20-24). -/
def altTargetKeys : List PKey := [PKey.ctrlR, PKey.shiftR, PKey.space]

/-- `self.pressed_keys` is a set; adding an already-present key is a no-op.
The set is modelled as a duplicate-free list. -/
def addKey (pressed : List PKey) (k : PKey) : List PKey :=
  if pressed.contains k then pressed else k :: pressed

/-- `self.pressed_keys.discard(key)` on release (hotkey_listener.py:56-57). -/
def removeKey (pressed : List PKey) (k : PKey) : List PKey :=
  pressed.filter (fun x => x ≠ k)

/-- `HotkeyListener._mixed_modifier_combination` (hotkey_listener.py:65-73). -/
def mixedModifierCombination (pressed : List PKey) : Bool :=
  (pressed.contains PKey.ctrlL || pressed.contains PKey.ctrlR) &&
    (pressed.contains PKey.shiftL || pressed.contains PKey.shiftR) &&
    pressed.contains PKey.space

/-- `HotkeyListener._is_hotkey_pressed` (hotkey_listener.py:59-63). -/
def isHotkeyPressed (pressed : List PKey) : Bool :=
  targetKeys.all pressed.contains || altTargetKeys.all pressed.contains ||
    mixedModifierCombination pressed

/-- Processing one event: `_on_key_press` (hotkey_listener.py:45-54) adds
the key and invokes the callback whenever the combination is then fully
pressed; `_on_key_release` discards the key and never invokes it.  Returns
the new pressed set and the number of callback invocations (0 or 1). -/
def onEvent (pressed : List PKey) : KeyEvent → List PKey × ℕ
  | .press k =>
    let p := addKey pressed k
    (p, if isHotkeyPressed p then 1 else 0)
  | .release k => (removeKey pressed k, 0)

/-- Total number of callback invocations over an event sequence. -/
def callbackCount : List KeyEvent → List PKey → ℕ
  | [], _ => 0
  | e :: rest, pressed => (onEvent pressed e).2 + callbackCount rest (onEvent pressed e).1

/-- Stated from the words of the spec, for comparison with `callbackCount`: a
combination-press edge is a press event at which the combination becomes
fully pressed, having not been fully pressed before the event. -/
def isPressEdge (pressed : List PKey) : KeyEvent → Bool
  | .press k => !isHotkeyPressed pressed && isHotkeyPressed (addKey pressed k)
  | .release _ => false

/-- Number of combination-press edges over an event sequence (the count the
spec says the callback invocations equal). -/
def pressEdgeCount : List KeyEvent → List PKey → ℕ
  | [], _ => 0
  | e :: rest, pressed =>
    (if isPressEdge pressed e then 1 else 0) +
      pressEdgeCount rest (onEvent pressed e).1

/-- A hold-repeat press: a press event delivered while the combination is
already fully pressed (and still is afterwards). -/
def isHoldRepeat (pressed : List PKey) : KeyEvent → Bool
  | .press k => isHotkeyPressed pressed && isHotkeyPressed (addKey pressed k)
  | .release _ => false

/-- Number of hold-repeat presses over an event sequence. -/
def holdRepeatCount : List KeyEvent → List PKey → ℕ
  | [], _ => 0
  | e :: rest, pressed =>
    (if isHoldRepeat pressed e then 1 else 0) +
      holdRepeatCount rest (onEvent pressed e).1

/-! ## File managers (file_manager.py:41-155) -/

/-- A filesystem effect performed during construction. -/
inductive FsEffect where
  | makeDirs (path : String)
deriving DecidableEq

/-- Outcome of a Python constructor call: either the object is constructed,
or a `TypeError` is raised (carrying the offending keyword name). -/
inductive CallResult where
  | constructed
  | typeError (keyword : String)
deriving DecidableEq

/-- Keyword parameters (besides `self`) accepted by
`TempFileManager.__init__` (file_manager.py:44-49): none. -/
def tempFileManagerInitParams : List String := []

/-- Python call semantics for keyword arguments: passing a keyword argument
the callee does not accept raises `TypeError` before the callee body runs. -/
def checkKwargs (accepted : List String) (kwargs : List String) : CallResult :=
  match kwargs.filter (fun k => !(accepted.contains k)) with
  | [] => CallResult.constructed
  | k :: _ => CallResult.typeError k

/-- `CustomDirFileManager.__init__` (file_manager.py:148-155): if the target
directory does not exist it first creates it with `os.makedirs`, then calls
`TempFileManager.__init__` with the keyword argument `temp_dir`.  The result
pairs the filesystem effects performed with the outcome of the call.  The
`constructed` branch (the body of `TempFileManager.__init__`) is unreachable
because `temp_dir` is rejected, so its effects are not modelled further. -/
def customDirFileManagerInit (directory : String) (dirExists : Bool) :
    List FsEffect × CallResult :=
  let effects := if dirExists then [] else [FsEffect.makeDirs directory]
  (effects, checkKwargs tempFileManagerInitParams ["temp_dir"])

/-! ## Further auxiliary lemmas -/

/-- A concrete one-frame mono chunk used in concrete runs. -/
def testChunk : Chunk := [[0]]

/-- `progressValue` with a cap of `0.0` is the raw elapsed value: `0.0` is
falsy in `if self.max_duration:`. -/
theorem progressValue_some_zero (e : ℚ) : progressValue (some 0) e = e := by
  simp [progressValue]

/-- The cooperative loop with `max_duration = 0` behaves exactly as with
`max_duration = None`. -/
theorem recordContinuouslyAsync_zero_eq_none (stopSet : ℕ → Bool)
    (clock : ℕ → ℚ) (reads : List (Option Chunk)) :
    ∀ (k : ℕ) (acc : List Chunk),
      recordContinuouslyAsync (some 0) stopSet clock reads k acc =
        recordContinuouslyAsync none stopSet clock reads k acc := by
  induction reads with
  | nil => intro k acc; rfl
  | cons r rest ih =>
    intro k acc
    cases h : stopSet k with
    | true => simp [recordContinuouslyAsync, h]
    | false =>
      cases r with
      | none => simp [recordContinuouslyAsync, h]
      | some c =>
        simp [recordContinuouslyAsync, h, capReached_some_zero,
          capReached_none, progressValue, ih (k + 1) (acc ++ [c])]

/-! ## Claim theorems -/

/-- **C1, counterexample.**  With `max_duration = 0.05` s the capture worker
appends one full 100 ms chunk before the cap test fires, so the buffer
returned after the cap corresponds to 0.1 s of audio, which is *not* at most
`D` seconds. -/
theorem cap_buffer_can_exceed_maxDuration :
    (recordContinuously (some (1 / 20)) (fun _ => false)
        [some testChunk, some testChunk, some testChunk] 0 []).1 = [testChunk]
    ∧ ¬ (((recordContinuously (some (1 / 20)) (fun _ => false)
        [some testChunk, some testChunk, some testChunk] 0 []).1.length : ℚ) *
          chunkDuration ≤ 1 / 20) := by
  constructor <;>
    norm_num [recordContinuously, capReached, chunkDuration, testChunk]

/-- **C1 (amended).**  For every configured `max_duration D > 0` the worker
stops appending once chunk-count × chunk-duration reaches `D` (a buffer at
the cap is never extended), and the captured duration is always strictly
below `D` plus one chunk period; when `D` is an exact multiple `m` of the
chunk duration, the captured duration moreover never exceeds `D` itself. -/
theorem cap_reached_buffer_bound (D : ℚ) (m : ℕ) (stopSet : ℕ → Bool)
    (reads : List (Option Chunk)) (acc : List Chunk) (k : ℕ)
    (hD : 0 < D) (hacc : capReached (some D) acc.length = true) (hm : 0 < m) :
    (recordContinuously (some D) stopSet reads k acc).1 = acc
    ∧ ((recordContinuously (some D) stopSet reads 0 []).1.length : ℚ) *
        chunkDuration < D + chunkDuration
    ∧ ((recordContinuously (some ((m : ℚ) * chunkDuration)) stopSet reads 0
          []).1.length : ℚ) * chunkDuration ≤ (m : ℚ) * chunkDuration := by
  refine ⟨recordContinuously_capReached_fix _ _ _ _ _ hacc, ?_, ?_⟩
  · refine recordContinuously_duration_lt D hD stopSet reads 0 [] ?_
    have hcd : (0 : ℚ) < chunkDuration := by norm_num [chunkDuration]
    simpa using add_pos hD hcd
  · have hlen := recordContinuously_length_le m hm stopSet reads 0 []
      (by simp)
    have hcd : (0 : ℚ) ≤ chunkDuration := by norm_num [chunkDuration]
    exact mul_le_mul_of_nonneg_right (by exact_mod_cast hlen) hcd

/-- **C1 witness.** -/
theorem cap_reached_buffer_bound_witness :
    (0 : ℚ) < 1 / 5
    ∧ capReached (some (1 / 5)) ([testChunk, testChunk] : List Chunk).length
        = true
    ∧ (recordContinuously (some (1 / 5)) (fun _ => false)
        [some testChunk, some testChunk, some testChunk] 0
        [testChunk, testChunk]).1 = [testChunk, testChunk]
    ∧ ((recordContinuously (some (1 / 5)) (fun _ => false)
        [some testChunk, some testChunk, some testChunk] 0 []).1.length : ℚ) *
          chunkDuration < 1 / 5 + chunkDuration
    ∧ ((recordContinuously (some ((2 : ℕ) * chunkDuration)) (fun _ => false)
        [some testChunk, some testChunk, some testChunk] 0 []).1.length : ℚ) *
          chunkDuration ≤ ((2 : ℕ) : ℚ) * chunkDuration := by
  have h := cap_reached_buffer_bound (1 / 5) 2 (fun _ => false)
    [some testChunk, some testChunk, some testChunk] [testChunk, testChunk] 0
    (by norm_num) (by norm_num [capReached, chunkDuration]) (by norm_num)
  exact ⟨by norm_num, by norm_num [capReached, chunkDuration], h.1, h.2.1,
    by exact_mod_cast h.2.2⟩

/-- **C2.**  `_stop_recording_and_process` first assigns `PROCESSING` and, on
every combination of downstream outcomes (no audio file, transcription
failure or empty text, injection success or failure), its last state
assignment is `IDLE`: the system is never left in `PROCESSING`. -/
theorem stop_cycle_returns_to_idle (env : ProcessEnv) (v : VoiceInputState) :
    (stopRecordingAndProcess env v).1.state = SystemState.idle
    ∧ (stopRecordingAndProcess env v).2 =
        [SystemState.processing, SystemState.idle] := by
  unfold stopRecordingAndProcess setState
  cases env.stopResult with
  | none => simp
  | some f =>
    cases h : env.transcribe f with
    | none => simp [h]
    | some t => cases ht : env.typeText t <;> simp [h, ht]

/-- **C3, counterexample.**  A read error after three accumulated chunks
marks the session failed, and the subsequent `stop_recording` returns `None`
— not the accumulated three-chunk buffer the claim promises: the guard
`if not self._is_recording` treats the failed session as "no recording in
progress". -/
theorem stop_after_error_discards_audio :
    recordContinuously (some 30) (fun _ => false)
        [some testChunk, some testChunk, some testChunk, none] 0 [] =
      ([testChunk, testChunk, testChunk], true)
    ∧ ([testChunk, testChunk, testChunk] : List Chunk) ≠ []
    ∧ (stopRecording (joinWorker (startRecording (initState 16000 1
        (some 30))).2 ([testChunk, testChunk, testChunk], true))).1 = none := by
  refine ⟨?_, by simp, ?_⟩
  · norm_num [recordContinuously, capReached, chunkDuration]
  · simp [stopRecording, joinWorker, startRecording, initState]

/-- **C3 (amended).**  Stream-open or read errors are caught and terminate
the worker early with the accumulated buffer intact, and the session is
marked failed; but a subsequent `stop_recording` then always returns none —
whatever audio was accumulated before the failure is discarded, not
returned.  The process survives and a subsequent `start_recording`
succeeds. -/
theorem worker_error_fails_session (s : RecorderState)
    (run : List Chunk × Bool) (maxDuration : Option ℚ) (stopSet : ℕ → Bool)
    (rest : List (Option Chunk)) (k : ℕ) (acc : List Chunk)
    (hErr : run.2 = true) (hstop : stopSet k = false) :
    recordContinuously maxDuration stopSet (none :: rest) k acc = (acc, true)
    ∧ (stopRecording (joinWorker s run)).1 = none
    ∧ (startRecording (joinWorker s run)).1 = true := by
  refine ⟨by simp [recordContinuously, hstop], ?_, ?_⟩
  · simp [stopRecording, joinWorker, hErr]
  · simp [startRecording, joinWorker, hErr]

/-- **C3 witness.** -/
theorem worker_error_fails_session_witness :
    (([testChunk], true) : List Chunk × Bool).2 = true
    ∧ (fun (_ : ℕ) => false) 0 = false
    ∧ recordContinuously (some 30) (fun _ => false) [none] 0 [] = ([], true)
    ∧ (stopRecording (joinWorker (startRecording (initState 16000 1
        (some 30))).2 ([testChunk], true))).1 = none
    ∧ (startRecording (joinWorker (startRecording (initState 16000 1
        (some 30))).2 ([testChunk], true))).1 = true := by
  have h := worker_error_fails_session
    (startRecording (initState 16000 1 (some 30))).2 ([testChunk], true)
    (some 30) (fun _ => false) [] 0 [] rfl rfl
  exact ⟨rfl, rfl, h.1, h.2.1, h.2.2⟩

/-- **C4, counterexample.**  Holding the combination down: a fourth press
event (auto-repeat of Space while Ctrl+Shift+Space is already fully
pressed) invokes the callback a second time, although only one
combination-press edge occurred — `_on_key_press` has no edge suppression. -/
theorem hold_repeat_retriggers_callback :
    callbackCount [KeyEvent.press PKey.ctrlL, KeyEvent.press PKey.shiftL,
        KeyEvent.press PKey.space, KeyEvent.press PKey.space] [] = 2
    ∧ pressEdgeCount [KeyEvent.press PKey.ctrlL, KeyEvent.press PKey.shiftL,
        KeyEvent.press PKey.space, KeyEvent.press PKey.space] [] = 1 := by
  exact ⟨rfl, rfl⟩

/-- **C4 (amended).**  The listener invokes the callback on *every* key-press
event after which the combination is fully pressed: over any event sequence
the number of callback invocations equals the number of combination-press
edges *plus* the number of hold-repeat presses delivered while the
combination is already fully pressed (so it is not once-per-edge when the
OS auto-repeats a held key). -/
theorem callbackCount_eq_edges_plus_repeats (events : List KeyEvent)
    (pressed : List PKey) :
    callbackCount events pressed =
      pressEdgeCount events pressed + holdRepeatCount events pressed := by
  induction events generalizing pressed with
  | nil => rfl
  | cons e rest ih =>
    have hsplit : ∀ a b : Bool, (if a = true then (1 : ℕ) else 0) =
        (if (!b && a) = true then 1 else 0) +
          (if (b && a) = true then 1 else 0) := by
      intro a b
      cases a <;> cases b <;> simp
    cases e with
    | press k =>
      simp only [callbackCount, pressEdgeCount, holdRepeatCount, onEvent,
        isPressEdge, isHoldRepeat]
      rw [ih (addKey pressed k), hsplit (isHotkeyPressed (addKey pressed k))
        (isHotkeyPressed pressed)]
      omega
    | release k =>
      simp only [callbackCount, pressEdgeCount, holdRepeatCount, onEvent,
        isPressEdge, isHoldRepeat]
      simpa using ih (removeKey pressed k)

/-- **C5.**  For a session that captured `chunks` (each of `L` frames),
`stop_recording` concatenates them into one contiguous array of exactly
`chunks.length * L` samples per channel (flattened to one dimension when
mono), while a session with zero captured chunks yields none. -/
theorem stopRecording_concatenates (s : RecorderState) (chunks : List Chunk)
    (L : ℕ) (hrec : s.isRecording = true) (hdata : s.audioData = some chunks)
    (hne : chunks ≠ []) (hL : ∀ c ∈ chunks, c.length = L)
    (hF : s.channels = 1 → ∀ c ∈ chunks, ∀ f ∈ c, f.length = 1) :
    (stopRecording { s with audioData := some [] }).1 = none
    ∧ (stopRecording s).1 = some (finalize s.channels chunks)
    ∧ sampleCountPerChannel (finalize s.channels chunks) =
        chunks.length * L := by
  refine ⟨?_, ?_, ?_⟩
  · simp [stopRecording, hrec]
  · simp [stopRecording, hrec, hdata, hne]
  · have hframes : chunks.flatten.length = chunks.length * L :=
      join_length_uniform chunks L hL
    by_cases hch : s.channels = 1
    · have hone : ∀ f ∈ chunks.flatten, f.length = 1 := by
        intro f hf
        obtain ⟨c, hc, hfc⟩ := List.mem_flatten.mp hf
        exact hF hch c hc f hfc
      have := join_length_uniform chunks.flatten 1 hone
      simp [finalize, sampleCountPerChannel, hch, this, hframes]
    · simp [finalize, sampleCountPerChannel, hch, hframes]

/-- A concrete recorder state holding two captured chunks, used to witness
the concatenation behaviour. -/
def twoChunkSession : RecorderState :=
  { initState 16000 1 (some 30) with
    isRecording := true
    audioData := some [testChunk, testChunk] }

/-- **C5 witness.** -/
theorem stopRecording_concatenates_witness :
    twoChunkSession.isRecording = true
    ∧ twoChunkSession.audioData = some [testChunk, testChunk]
    ∧ (stopRecording { twoChunkSession with audioData := some [] }).1 = none
    ∧ (stopRecording twoChunkSession).1 =
        some (finalize twoChunkSession.channels [testChunk, testChunk])
    ∧ sampleCountPerChannel
        (finalize twoChunkSession.channels [testChunk, testChunk]) = 2 * 1 := by
  have h := stopRecording_concatenates twoChunkSession [testChunk, testChunk]
    1 rfl rfl (by simp) (by simp [testChunk])
    (by simp [testChunk, twoChunkSession, initState])
  exact ⟨rfl, rfl, h.1, h.2.1, h.2.2⟩

/-- **C6.**  In the cooperative recorder with the deterministic clock of the
scenarios of the spec (iteration `k` observes elapsed time `(k+1) ×
chunk-duration`), each progress callback after an appended chunk receives
`min(elapsed / max_duration, 1)` when a positive cap is configured, the
reported sequence is non-decreasing, its last value is exactly `1` when the
session ends with the cap reached, and with no cap configured each callback
receives the raw elapsed time. -/
theorem async_progress_values (d : ℚ)
    (reads uncappedReads : List (Option Chunk)) (hd : 0 < d)
    (hcap : d ≤ (((recordContinuouslyAsync (some d) (fun _ => false) detClock
        reads 0 []).1.1).length : ℚ) * chunkDuration) :
    (recordContinuouslyAsync (some d) (fun _ => false) detClock reads 0 []).2 =
      (List.range ((recordContinuouslyAsync (some d) (fun _ => false) detClock
        reads 0 []).1.1).length).map (fun i => min (detClock i / d) 1)
    ∧ ((recordContinuouslyAsync (some d) (fun _ => false) detClock reads 0
        []).2).Pairwise (· ≤ ·)
    ∧ ((recordContinuouslyAsync (some d) (fun _ => false) detClock reads 0
        []).2).getLast? = some 1
    ∧ (recordContinuouslyAsync none (fun _ => false) detClock uncappedReads 0
        []).2 =
      (List.range ((recordContinuouslyAsync none (fun _ => false) detClock
        uncappedReads 0 []).1.1).length).map detClock := by
  have hdne : d ≠ 0 := ne_of_gt hd
  obtain ⟨n, hlen, hprogs⟩ := recordContinuouslyAsync_progs_char (some d)
    (fun _ => false) detClock reads 0 []
  have hn : ((recordContinuouslyAsync (some d) (fun _ => false) detClock
      reads 0 []).1.1).length = n := by simpa using hlen
  have hmap : (recordContinuouslyAsync (some d) (fun _ => false) detClock
      reads 0 []).2 =
      (List.range n).map (fun i => min (detClock i / d) 1) := by
    rw [hprogs]
    apply List.map_congr_left
    intro a _
    simp [progressValue, hdne]
  have hmono : ∀ i j : ℕ, i < j →
      min (detClock i / d) 1 ≤ min (detClock j / d) 1 := by
    intro i j hij
    have hclock : detClock i ≤ detClock j := by
      have hcd : (0 : ℚ) ≤ chunkDuration := by norm_num [chunkDuration]
      have : ((i : ℚ) + 1) ≤ ((j : ℚ) + 1) := by
        have : (i : ℚ) ≤ (j : ℚ) := by exact_mod_cast le_of_lt hij
        linarith
      exact mul_le_mul_of_nonneg_right this hcd
    have hdiv : detClock i / d ≤ detClock j / d := by gcongr
    exact min_le_min hdiv (le_refl 1)
  have hnpos : 0 < n := by
    rcases Nat.eq_zero_or_pos n with h0 | h
    · rw [hn, h0] at hcap
      norm_num at hcap
      exact absurd hcap (not_le.mpr hd)
    · exact h
  refine ⟨by rw [hmap, hn], ?_, ?_, ?_⟩
  · rw [hmap]
    exact List.Pairwise.map _ (fun a b hab => hmono a b hab)
      (List.pairwise_lt_range n)
  · obtain ⟨m, rfl⟩ := Nat.exists_eq_succ_of_ne_zero (Nat.pos_iff_ne_zero.mp
      hnpos)
    rw [hmap, List.range_succ, List.map_append]
    simp only [List.map_cons, List.map_nil, List.getLast?_concat]
    have hclockm : d ≤ detClock m := by
      rw [hn] at hcap
      push_cast at hcap
      have hdet : detClock m = ((m : ℚ) + 1) * chunkDuration := rfl
      rw [hdet]
      exact hcap
    have hmin : min (detClock m / d) 1 = 1 :=
      min_eq_right ((one_le_div hd).mpr hclockm)
    rw [hmin]
  · obtain ⟨n2, hlen2, hprogs2⟩ := recordContinuouslyAsync_progs_char none
      (fun _ => false) detClock uncappedReads 0 []
    have hn2 : ((recordContinuouslyAsync none (fun _ => false) detClock
        uncappedReads 0 []).1.1).length = n2 := by simpa using hlen2
    rw [hprogs2, hn2]
    apply List.map_congr_left
    intro a _
    simp [progressValue]

/-- **C6 witness.** -/
theorem async_progress_values_witness :
    (0 : ℚ) < 1 / 5
    ∧ (1 / 5 : ℚ) ≤ (((recordContinuouslyAsync (some (1 / 5))
        (fun _ => false) detClock [some testChunk, some testChunk,
        some testChunk] 0 []).1.1).length : ℚ) * chunkDuration
    ∧ (recordContinuouslyAsync (some (1 / 5)) (fun _ => false) detClock
        [some testChunk, some testChunk, some testChunk] 0 []).2 =
      (List.range ((recordContinuouslyAsync (some (1 / 5)) (fun _ => false)
        detClock [some testChunk, some testChunk, some testChunk] 0
        []).1.1).length).map (fun i => min (detClock i / (1 / 5)) 1)
    ∧ ((recordContinuouslyAsync (some (1 / 5)) (fun _ => false) detClock
        [some testChunk, some testChunk, some testChunk] 0
        []).2).Pairwise (· ≤ ·)
    ∧ ((recordContinuouslyAsync (some (1 / 5)) (fun _ => false) detClock
        [some testChunk, some testChunk, some testChunk] 0
        []).2).getLast? = some 1
    ∧ (recordContinuouslyAsync none (fun _ => false) detClock
        [some testChunk] 0 []).2 =
      (List.range ((recordContinuouslyAsync none (fun _ => false) detClock
        [some testChunk] 0 []).1.1).length).map detClock := by
  have hcap : (1 / 5 : ℚ) ≤ (((recordContinuouslyAsync (some (1 / 5))
      (fun _ => false) detClock [some testChunk, some testChunk,
      some testChunk] 0 []).1.1).length : ℚ) * chunkDuration := by
    norm_num [recordContinuouslyAsync, capReached, chunkDuration, detClock,
      progressValue]
  have h := async_progress_values (1 / 5)
    [some testChunk, some testChunk, some testChunk] [some testChunk]
    (by norm_num) hcap
  exact ⟨by norm_num, hcap, h.1, h.2.1, h.2.2.1, h.2.2.2⟩

/-- **C7.**  `start_recording` while a session is active returns `False` and
leaves the whole recorder state — flag, buffer, stop event, worker count —
exactly unchanged. -/
theorem startRecording_already_active (s : RecorderState)
    (h : s.isRecording = true) : startRecording s = (false, s) := by
  simp [startRecording, h]

/-- **C7 witness.** -/
theorem startRecording_already_active_witness :
    startRecording { initState 16000 1 (some 30) with isRecording := true } =
      (false, { initState 16000 1 (some 30) with isRecording := true }) :=
  startRecording_already_active _ rfl

/-- **C8.**  `stop_recording` with no active session returns none and leaves
the recorder state exactly unchanged. -/
theorem stopRecording_no_session (s : RecorderState)
    (h : s.isRecording = false) : stopRecording s = (none, s) := by
  simp [stopRecording, h]

/-- **C8 witness.** -/
theorem stopRecording_no_session_witness :
    stopRecording (initState 16000 1 (some 30)) =
      (none, initState 16000 1 (some 30)) :=
  stopRecording_no_session _ rfl

/-- **C9.**  A recorder constructed with `max_duration = 0` behaves exactly
as if no cap were configured — the truthiness test `if self.max_duration`
never fires — in both the threaded and the cooperative capture loops, and
absent a stop request the loop appends every chunk the stream delivers,
never stopping on its own. -/
theorem maxDuration_zero_behaves_uncapped (stopSet : ℕ → Bool)
    (clock : ℕ → ℚ) (reads : List (Option Chunk)) (plainReads : List Chunk)
    (k : ℕ) (acc : List Chunk) :
    recordContinuously (some 0) stopSet reads k acc =
      recordContinuously none stopSet reads k acc
    ∧ recordContinuouslyAsync (some 0) stopSet clock reads k acc =
      recordContinuouslyAsync none stopSet clock reads k acc
    ∧ recordContinuously (some 0) (fun _ => false) (plainReads.map some) 0 []
        = (plainReads, false) := by
  refine ⟨recordContinuously_zero_eq_none stopSet reads k acc,
    recordContinuouslyAsync_zero_eq_none stopSet clock reads k acc, ?_⟩
  rw [recordContinuously_zero_eq_none]
  simpa using recordContinuously_none_appends_all plainReads 0 []

/-- **C10, counterexample.**  Constructing `CustomDirFileManager` on a
non-existing directory performs the `os.makedirs` filesystem operation
*before* the `TypeError` is raised, so the `TypeError` does not precede
every file operation. -/
theorem customDir_makedirs_before_typeError :
    customDirFileManagerInit ("/data/audio") false =
      ([FsEffect.makeDirs ("/data/audio")],
        CallResult.typeError ("temp_dir")) := rfl

/-- **C10 (amended).**  For every directory argument, constructing
`CustomDirFileManager` raises a `TypeError` — `__init__` forwards the
`temp_dir` keyword to `TempFileManager.__init__`, which accepts no
parameters — so the class can never be instantiated; however, when the
directory does not exist, `os.makedirs` has already created it by the time
the `TypeError` is raised. -/
theorem customDir_never_constructed (directory : String) (dirExists : Bool) :
    (customDirFileManagerInit directory dirExists).2 =
      CallResult.typeError ("temp_dir")
    ∧ (customDirFileManagerInit directory false).1 =
      [FsEffect.makeDirs directory] := by
  exact ⟨rfl, rfl⟩

end Mic2Key
